import Mathlib

/-!
Verification of the termcolor repository (two Rust binaries:
a swatch renderer in main.rs and a text formatter in format.rs).

Modelling conventions:
* f64 values are embedded as exact rationals.  Every concrete input
  appearing in a claim was checked to be exactly representable and to
  follow the same computation path under IEEE f64 as under exact
  rational arithmetic, so the embedding agrees with the program there.
* The Rust float remainder a % b truncates toward zero and keeps the
  sign of the dividend; it is modelled by fmodQ below via truncQ.
* f64::round rounds half away from zero; modelled by roundQ.
* u8 values are modelled as naturals; u8 saturating_sub is Nat
  subtraction; the wrapping u8 addition in main (hues + 1) is taken
  modulo 256; the saturating float-to-u8 cast is clampByte.
-/

namespace MainRs

/-- Rust f64 truncation toward zero, on rationals. -/
def truncQ (x : ℚ) : ℤ := if 0 ≤ x then ⌊x⌋ else ⌈x⌉

/-- Rust f64 remainder a % b (sign of the dividend), on rationals. -/
def fmodQ (a b : ℚ) : ℚ := a - b * (truncQ (a / b) : ℚ)

/-- Rust f64::round: round half away from zero, on rationals. -/
def roundQ (x : ℚ) : ℤ := if 0 ≤ x then ⌊x + 1 / 2⌋ else ⌈x - 1 / 2⌉

/-- Rust saturating cast of an integer to u8 (as used by `as u8` on a
rounded float value). -/
def clampByte (n : ℤ) : ℕ := (max 0 (min 255 n)).toNat

/-- The struct Color(f64, f64, f64) of main.rs. -/
structure Color where (r : ℚ) (g : ℚ) (b : ℚ)
deriving DecidableEq, Repr

/-- Color::from_hsv of main.rs: sector-based HSV to RGB conversion.
The hue argument is multiplied by 360 to degrees; no wrapping is
performed on the hue itself (only inside the x computation via % 2). -/
def from_hsv (h s v : ℚ) : Color :=
  let hd := h * 360
  let c := v * s
  let x := c * (1 - |fmodQ (hd / 60) 2 - 1|)
  let m := v - c
  let p : ℚ × ℚ × ℚ :=
    if hd < 60 then (c, x, 0)
    else if hd < 120 then (x, c, 0)
    else if hd < 180 then (0, c, x)
    else if hd < 240 then (0, x, c)
    else if hd < 300 then (x, 0, c)
    else (c, 0, x)
  ⟨p.1 + m, p.2.1 + m, p.2.2 + m⟩

/-- Color::as_bytes of main.rs: each component times 255, rounded,
cast (saturating) to u8. -/
def Color.as_bytes (c : Color) : ℕ × ℕ × ℕ :=
  (clampByte (roundQ (c.r * 255)),
   clampByte (roundQ (c.g * 255)),
   clampByte (roundQ (c.b * 255)))

/-- Color::eic_luminosity of main.rs: 0.2126 R + 0.7152 G + 0.0722 B. -/
def Color.eic_luminosity (c : Color) : ℚ :=
  0.2126 * c.r + 0.7152 * c.g + 0.0722 * c.b

/-- Color::nearest_ansi_color_code of main.rs: bytes, each channel
divided by 32 (integer division) and capped at 5, then
16 + 36 r + 6 g + b. -/
def Color.nearest_ansi_color_code (c : Color) : ℕ :=
  let bs := c.as_bytes
  let r := min (bs.1 / 32) 5
  let g := min (bs.2.1 / 32) 5
  let b := min (bs.2.2 / 32) 5
  16 + 36 * r + 6 * g + b

/-- The range function of main.rs.  Subtractions on u8 are saturating,
modelled by Nat subtraction.  The factor 1/(resolution-1) is f64
division; whenever the map is reached with resolution ≥ 2 it is the
exact rational.  The rational model totalizes the one divergent point:
at resolution = 1 with both truncations 0 Rust computes 1.0/0.0 = inf
and the element 0.0*inf+offset is NaN, while here 1/0 = 0; theorems
about elements therefore assume truncate_tail ≥ 1 (as in every call
main makes), which forces resolution ≥ 2 before the map is reached. -/
def range (resolution truncate_head truncate_tail : ℕ) (offset : ℚ) :
    List ℚ :=
  if resolution - truncate_head - truncate_tail = 0 then []
  else
    let factor : ℚ := 1 / ((resolution - 1 : ℕ) : ℚ)
    (List.range' truncate_head ((resolution - truncate_tail) - truncate_head)).map
      (fun i : ℕ => fmodQ ((i : ℚ) * factor + offset) 1)

/-- The hue sample sequence built in main:
range(args.hues + 1, 0, 1, args.offset / 360.0).  hues is a u8 and the
+ 1 is wrapping u8 addition (release build), hence the mod 256;
offset is the commandline offset in degrees. -/
def hueSamples (hues : ℕ) (offset : ℚ) : List ℚ :=
  range ((hues + 1) % 256) 0 1 (offset / 360)

end MainRs

namespace FormatRs

/-- The FormattingOption enum of format.rs. -/
inductive FormattingOption where
| Bold | Dim | Underline | Inverted | Strikethrough
deriving DecidableEq, Repr

/-- The Color enum of format.rs (8 base + 8 bright colors). -/
inductive Color where
| Black | White | Red | Green | Blue | Yellow | Cyan | Magenta
| BrightBlack | BrightWhite | BrightRed | BrightGreen
| BrightBlue | BrightYellow | BrightCyan | BrightMagenta
deriving DecidableEq, Repr

/-- The Style enum of format.rs. -/
inductive Style where
| Ok | Notice | Error | Warn | Info | Debug
deriving DecidableEq, Repr

/-- The Args struct of format.rs (the fields consumed by format). -/
structure Args where
(text : List String)
(style : Option Style)
(foreground : Option Color)
(background : Option Color)
(options : List FormattingOption)
(reset : Bool)
(no_reset : Bool)
(no_newline : Bool)

/-- get_format_code of format.rs. -/
def get_format_code (o : FormattingOption) : ℕ :=
  match o with
  | .Bold => 1
  | .Dim => 2
  | .Underline => 4
  | .Inverted => 7
  | .Strikethrough => 9

/-- get_color_code_digit of format.rs. -/
def get_color_code_digit (c : Color) : ℕ :=
  match c with
  | .Black => 0
  | .Red => 1
  | .Green => 2
  | .Yellow => 3
  | .Blue => 4
  | .Magenta => 5
  | .Cyan => 6
  | .White => 7
  | .BrightBlack => 60
  | .BrightRed => 61
  | .BrightGreen => 62
  | .BrightYellow => 63
  | .BrightBlue => 64
  | .BrightMagenta => 65
  | .BrightCyan => 66
  | .BrightWhite => 67

/-- The clap value parser for the Color enum: kebab-case variant names
plus the alias attributes declared in format.rs (single letters,
uppercase single letters and uppercase names for bright variants). -/
def color_token (s : String) : Option Color :=
  if s = "black" ∨ s = "k" then some .Black
  else if s = "white" ∨ s = "w" then some .White
  else if s = "red" ∨ s = "r" then some .Red
  else if s = "green" ∨ s = "g" then some .Green
  else if s = "blue" ∨ s = "b" then some .Blue
  else if s = "yellow" ∨ s = "y" then some .Yellow
  else if s = "cyan" ∨ s = "c" then some .Cyan
  else if s = "magenta" ∨ s = "m" then some .Magenta
  else if s = "bright-black" ∨ s = "K" ∨ s = "BLACK" then some .BrightBlack
  else if s = "bright-white" ∨ s = "W" ∨ s = "WHITE" then some .BrightWhite
  else if s = "bright-red" ∨ s = "R" ∨ s = "RED" then some .BrightRed
  else if s = "bright-green" ∨ s = "G" ∨ s = "GREEN" then some .BrightGreen
  else if s = "bright-blue" ∨ s = "B" ∨ s = "BLUE" then some .BrightBlue
  else if s = "bright-yellow" ∨ s = "Y" ∨ s = "YELLOW" then some .BrightYellow
  else if s = "bright-cyan" ∨ s = "C" ∨ s = "CYAN" then some .BrightCyan
  else if s = "bright-magenta" ∨ s = "M" ∨ s = "MAGENTA" then some .BrightMagenta
  else none

/-- apply_style of format.rs: when a premade style is set, background,
foreground and options are first cleared, then the preset values are
installed. -/
def apply_style (args : Args) : Args :=
  match args.style with
  | none => args
  | some style =>
    let args := { args with background := none, foreground := none,
                            options := [] }
    match style with
    | .Ok => { args with foreground := some .Green }
    | .Notice => { args with foreground := some .Magenta }
    | .Error => { args with foreground := some .Red }
    | .Warn => { args with foreground := some .Yellow }
    | .Info => { args with foreground := some .Cyan }
    | .Debug => { args with background := some .Cyan,
                            foreground := some .Black,
                            options := args.options ++ [.Dim] }

/-- format of format.rs: apply the premade style, collect SGR codes
(foreground, background, then options in order), wrap the space-joined
text, then apply the reset / no_reset / no_newline flags. -/
def format (args0 : Args) : String :=
  let args := apply_style args0
  let prop_codes : List String :=
    (match args.foreground with
     | some fg => [toString (30 + get_color_code_digit fg)]
     | none => []) ++
    (match args.background with
     | some bg => [toString (40 + get_color_code_digit bg)]
     | none => []) ++
    args.options.map (fun o => toString (get_format_code o))
  let text := String.intercalate " " args.text
  let result :=
    if prop_codes.isEmpty then text
    else "\x1b[" ++ String.intercalate ";" prop_codes ++ "m" ++ text
  let result := if args.reset then "\x1b[m" ++ result else result
  let result := if !args.no_reset then result ++ "\x1b[m" else result
  let result := if !args.no_newline then result ++ "\n" else result
  result

end FormatRs

/-! Helper lemmas shared by the claim theorems. -/

lemma truncQ_eq_floor {x : ℚ} (hx : 0 ≤ x) : MainRs.truncQ x = ⌊x⌋ := if_pos hx

lemma fmodQ_nonneg_lt {a b : ℚ} (ha : 0 ≤ a) (hb : 0 < b) :
    0 ≤ MainRs.fmodQ a b ∧ MainRs.fmodQ a b < b := by
  have hdiv : 0 ≤ a / b := div_nonneg ha hb.le
  have h1 : ((⌊a / b⌋ : ℚ)) ≤ a / b := Int.floor_le _
  have h2 : a / b < ⌊a / b⌋ + 1 := Int.lt_floor_add_one _
  have key : b * (a / b) = a := by field_simp
  unfold MainRs.fmodQ
  rw [truncQ_eq_floor hdiv]
  constructor
  · nlinarith [mul_le_mul_of_nonneg_left h1 hb.le]
  · nlinarith [mul_lt_mul_of_pos_left h2 hb]

lemma str_append_assoc (a b c : String) : a ++ b ++ c = a ++ (b ++ c) := by
  cases a with
  | mk la =>
  cases b with
  | mk lb =>
  cases c with
  | mk lc =>
  show String.mk (la ++ lb ++ lc) = String.mk (la ++ (lb ++ lc))
  rw [List.append_assoc]

lemma comp_bounds (h s v : ℚ) (h0 : 0 ≤ h) (h1 : h < 1)
    (s0 : 0 ≤ s) (s1 : s ≤ 1) (v0 : 0 ≤ v) (v1 : v ≤ 1) :
    (0 ≤ (MainRs.from_hsv h s v).r ∧ (MainRs.from_hsv h s v).r ≤ 1) ∧
    (0 ≤ (MainRs.from_hsv h s v).g ∧ (MainRs.from_hsv h s v).g ≤ 1) ∧
    (0 ≤ (MainRs.from_hsv h s v).b ∧ (MainRs.from_hsv h s v).b ≤ 1) := by
  have hd0 : 0 ≤ h * 360 / 60 := by nlinarith
  obtain ⟨hw0, hw2⟩ := fmodQ_nonneg_lt hd0 (by norm_num : (0:ℚ) < 2)
  set w := MainRs.fmodQ (h * 360 / 60) 2 with hw
  have habs : |w - 1| ≤ 1 := abs_le.mpr ⟨by linarith, by linarith⟩
  have habs0 : 0 ≤ |w - 1| := abs_nonneg _
  have hc0 : 0 ≤ v * s := mul_nonneg v0 s0
  have hx0 : 0 ≤ v * s * (1 - |w - 1|) := by
    apply mul_nonneg hc0
    linarith
  have hxc : v * s * (1 - |w - 1|) ≤ v * s := by
    nlinarith [mul_nonneg hc0 habs0]
  have hcv : v * s ≤ v := by nlinarith
  simp only [MainRs.from_hsv, ← hw]
  split_ifs <;>
    refine ⟨⟨?_, ?_⟩, ⟨?_, ?_⟩, ⟨?_, ?_⟩⟩ <;> dsimp only <;> linarith

lemma byte_ok {x : ℚ} (hx0 : 0 ≤ x) (hx1 : x ≤ 1) :
    0 ≤ MainRs.roundQ (x * 255) ∧ MainRs.roundQ (x * 255) ≤ 255 ∧
    (MainRs.clampByte (MainRs.roundQ (x * 255)) : ℤ) = MainRs.roundQ (x * 255) := by
  have h0 : (0:ℚ) ≤ x * 255 := by nlinarith
  have hr : MainRs.roundQ (x * 255) = ⌊x * 255 + 1/2⌋ := if_pos h0
  have hlo : 0 ≤ ⌊x * 255 + 1/2⌋ := Int.floor_nonneg.mpr (by linarith)
  have hhi : ⌊x * 255 + 1/2⌋ ≤ 255 := by
    have hlt : x * 255 + 1/2 < ((256:ℤ):ℚ) := by push_cast; nlinarith
    have := Int.floor_lt.mpr hlt
    omega
  refine ⟨hr ▸ hlo, hr ▸ hhi, ?_⟩
  unfold MainRs.clampByte
  rw [hr]
  omega

/-! Claim theorems. -/

/-- C1: under the program's arithmetic (exact at these inputs, where the
f64 computation rounds to the same values), from_hsv maps the canonical
HSV points to the canonical RGB colors: black, white, red, green, blue. -/
theorem from_hsv_canonical_points :
    MainRs.from_hsv 0 0 0 = ⟨0, 0, 0⟩ ∧
    MainRs.from_hsv 0 0 1 = ⟨1, 1, 1⟩ ∧
    MainRs.from_hsv 0 1 1 = ⟨1, 0, 0⟩ ∧
    MainRs.from_hsv (1/3) 1 1 = ⟨0, 1, 0⟩ ∧
    MainRs.from_hsv (2/3) 1 1 = ⟨0, 0, 1⟩ := by
  refine ⟨?_, ?_, ?_, ?_, ?_⟩ <;>
    norm_num [MainRs.from_hsv, MainRs.fmodQ, MainRs.truncQ]

/-- C3 counterexample: at the default hues = 16 (offset 0) the hue
sample sequence built by main has length 16, not hues + 1 = 17. -/
theorem hue_samples_length_not_hues_succ :
    (MainRs.hueSamples 16 0).length = 16 ∧
    (MainRs.hueSamples 16 0).length ≠ 16 + 1 := by
  constructor <;>
    norm_num [MainRs.hueSamples, MainRs.range, MainRs.fmodQ, MainRs.truncQ,
      List.range']

/-- C3 amended: for 1 ≤ hues ≤ 254 (so that the u8 increment hues + 1
does not wrap) the hue sample sequence is exactly the hues points
(i/hues + offset/360) mod 1 for i = 0 .. hues-1: it has length hues
(not hues + 1), is evenly spaced with step 1/hues over one full turn
plus the offset, and contains a sample at hue 0 when the offset is 0. -/
theorem hue_samples_description :
    ∀ (hues : ℕ) (offset : ℚ), 1 ≤ hues → hues ≤ 254 →
      MainRs.hueSamples hues offset
        = (List.range hues).map
            (fun i : ℕ => MainRs.fmodQ ((i:ℚ) / (hues:ℚ) + offset / 360) 1) ∧
      (MainRs.hueSamples hues offset).length = hues ∧
      (0:ℚ) ∈ MainRs.hueSamples hues 0 := by
  intro hues offset hge hle
  have key : ∀ off : ℚ, MainRs.hueSamples hues off
      = (List.range hues).map
          (fun i : ℕ => MainRs.fmodQ ((i:ℚ) / (hues:ℚ) + off / 360) 1) := by
    intro off
    unfold MainRs.hueSamples MainRs.range
    rw [Nat.mod_eq_of_lt (by omega)]
    rw [if_neg (by omega)]
    have e1 : (hues + 1 - 1) - 0 = hues := by omega
    have e2 : hues + 1 - 1 = hues := by omega
    rw [e1, e2, ← List.range_eq_range']
    apply List.map_congr_left
    intro i _
    congr 1
    rw [mul_one_div]
  refine ⟨key offset, ?_, ?_⟩
  · rw [key offset, List.length_map, List.length_range]
  · rw [key 0]
    refine List.mem_map.mpr ⟨0, List.mem_range.mpr (by omega), ?_⟩
    norm_num [MainRs.fmodQ, MainRs.truncQ]

/-- C3 witness: the hue sample description applied at hues = 16,
offset = 0. -/
theorem hue_samples_description_witness :
    (1 ≤ 16 ∧ 16 ≤ 254) ∧
    (MainRs.hueSamples 16 0).length = 16 ∧
    (0:ℚ) ∈ MainRs.hueSamples 16 0 :=
  ⟨⟨by norm_num, by norm_num⟩,
   (hue_samples_description 16 0 (by norm_num) (by norm_num)).2⟩

/-- C4 counterexample: the CLI token R parses as bright red, whose SGR
foreground code is 30 + 61 = 91, so format with foreground R and
background k under no_reset and no_newline emits ESC[91;40mhi, not the
claimed ESC[31;40mhi. -/
theorem format_bright_red_token :
    FormatRs.color_token "R" = some FormatRs.Color.BrightRed ∧
    FormatRs.color_token "k" = some FormatRs.Color.Black ∧
    FormatRs.format ⟨["hi"], none, FormatRs.color_token "R",
        FormatRs.color_token "k", [], false, true, true⟩ = "\x1b[91;40mhi" ∧
    FormatRs.format ⟨["hi"], none, FormatRs.color_token "R",
        FormatRs.color_token "k", [], false, true, true⟩ ≠ "\x1b[31;40mhi" := by
  refine ⟨by decide, by decide, by decide, by decide⟩

/-- C4 amended: with style = error and all other fields empty or false,
format emits ESC[31m, the space-joined text, ESC[m and a newline; with
no_reset and no_newline set, foreground from CLI token R (bright red,
code 91) and background from CLI token k (black, code 40), format on
the single token hi emits exactly ESC[91;40mhi. -/
theorem format_error_style_and_tokens :
    (∀ text : List String,
      FormatRs.format ⟨text, some FormatRs.Style.Error, none, none, [],
          false, false, false⟩
        = "\x1b[31m" ++ String.intercalate " " text ++ "\x1b[m\n") ∧
    FormatRs.format ⟨["hi"], none, FormatRs.color_token "R",
        FormatRs.color_token "k", [], false, true, true⟩ = "\x1b[91;40mhi" := by
  constructor
  · intro text
    show ("\x1b[31m" ++ String.intercalate " " text) ++ "\x1b[m" ++ "\n"
        = ("\x1b[31m" ++ String.intercalate " " text) ++ "\x1b[m\n"
    rw [str_append_assoc]
    rfl
  · decide

/-- C5: applying the debug preset to any argument record overwrites the
independently supplied foreground, background and options, always
yielding background cyan, foreground black, options [dim]. -/
theorem apply_style_debug_overwrites :
    ∀ a : FormatRs.Args,
      (FormatRs.apply_style { a with style := some FormatRs.Style.Debug }).background
          = some FormatRs.Color.Cyan ∧
      (FormatRs.apply_style { a with style := some FormatRs.Style.Debug }).foreground
          = some FormatRs.Color.Black ∧
      (FormatRs.apply_style { a with style := some FormatRs.Style.Debug }).options
          = [FormatRs.FormattingOption.Dim] := by
  intro a
  exact ⟨rfl, rfl, rfl⟩

/-- C6: for h in [0,1), s in [0,1], v in [0,1] every RGB component of
from_hsv lies in [0,1]; consequently each byte of as_bytes equals the
plain rounding of component*255 (the saturating u8 cast never clamps)
and that rounding lies in [0,255]. -/
theorem from_hsv_components_and_bytes (h s v : ℚ)
    (h0 : 0 ≤ h) (h1 : h < 1) (s0 : 0 ≤ s) (s1 : s ≤ 1)
    (v0 : 0 ≤ v) (v1 : v ≤ 1) :
    ((0 ≤ (MainRs.from_hsv h s v).r ∧ (MainRs.from_hsv h s v).r ≤ 1) ∧
     (0 ≤ (MainRs.from_hsv h s v).g ∧ (MainRs.from_hsv h s v).g ≤ 1) ∧
     (0 ≤ (MainRs.from_hsv h s v).b ∧ (MainRs.from_hsv h s v).b ≤ 1)) ∧
    (((MainRs.from_hsv h s v).as_bytes.1 : ℤ)
        = MainRs.roundQ ((MainRs.from_hsv h s v).r * 255) ∧
     0 ≤ MainRs.roundQ ((MainRs.from_hsv h s v).r * 255) ∧
     MainRs.roundQ ((MainRs.from_hsv h s v).r * 255) ≤ 255) ∧
    (((MainRs.from_hsv h s v).as_bytes.2.1 : ℤ)
        = MainRs.roundQ ((MainRs.from_hsv h s v).g * 255) ∧
     0 ≤ MainRs.roundQ ((MainRs.from_hsv h s v).g * 255) ∧
     MainRs.roundQ ((MainRs.from_hsv h s v).g * 255) ≤ 255) ∧
    (((MainRs.from_hsv h s v).as_bytes.2.2 : ℤ)
        = MainRs.roundQ ((MainRs.from_hsv h s v).b * 255) ∧
     0 ≤ MainRs.roundQ ((MainRs.from_hsv h s v).b * 255) ∧
     MainRs.roundQ ((MainRs.from_hsv h s v).b * 255) ≤ 255) := by
  obtain ⟨⟨r0, r1⟩, ⟨g0, g1⟩, ⟨b0, b1⟩⟩ := comp_bounds h s v h0 h1 s0 s1 v0 v1
  obtain ⟨ra, rb, rc⟩ := byte_ok r0 r1
  obtain ⟨ga, gb, gc⟩ := byte_ok g0 g1
  obtain ⟨ba, bb, bc⟩ := byte_ok b0 b1
  exact ⟨⟨⟨r0, r1⟩, ⟨g0, g1⟩, ⟨b0, b1⟩⟩, ⟨rc, ra, rb⟩, ⟨gc, ga, gb⟩,
    ⟨bc, ba, bb⟩⟩

/-- C6 witness: the component/byte invariant applied at
h = 1/2, s = 1, v = 1. -/
theorem from_hsv_components_and_bytes_witness :
    (0 ≤ (1/2 : ℚ) ∧ (1/2 : ℚ) < 1 ∧ (0:ℚ) ≤ 1) ∧
    (0 ≤ (MainRs.from_hsv (1/2) 1 1).r ∧ (MainRs.from_hsv (1/2) 1 1).r ≤ 1) ∧
    (0 ≤ (MainRs.from_hsv (1/2) 1 1).g ∧ (MainRs.from_hsv (1/2) 1 1).g ≤ 1) ∧
    (0 ≤ (MainRs.from_hsv (1/2) 1 1).b ∧ (MainRs.from_hsv (1/2) 1 1).b ≤ 1) :=
  ⟨⟨by norm_num, by norm_num, by norm_num⟩,
   (from_hsv_components_and_bytes (1/2) 1 1 (by norm_num) (by norm_num)
     (by norm_num) (by norm_num) (by norm_num) (by norm_num)).1⟩

/-- C7: range(5,1,1,0) gives exactly the three interior quarter points;
range(1,1,1,offset) is empty; and whenever resolution minus both
truncations is at most zero (as integers; the u8 subtraction in the
code saturates) the result is empty. -/
theorem range_truncation_and_empty :
    MainRs.range 5 1 1 0 = [1/4, 1/2, 3/4] ∧
    (∀ offset : ℚ, MainRs.range 1 1 1 offset = []) ∧
    (∀ (res th tt : ℕ) (offset : ℚ), (res:ℤ) - th - tt ≤ 0 →
      MainRs.range res th tt offset = []) := by
  refine ⟨by norm_num [MainRs.range, MainRs.fmodQ, MainRs.truncQ, List.range'],
    ?_, ?_⟩
  · intro offset
    unfold MainRs.range
    rw [if_pos (by omega)]
  · intro res th tt offset hle
    unfold MainRs.range
    rw [if_pos (by omega)]

/-- C7 witness: the empty-range clause applied at resolution 1 with
both truncations 1 and offset 1/2. -/
theorem range_truncation_and_empty_witness :
    ((1:ℤ) - 1 - 1 ≤ 0) ∧ MainRs.range 1 1 1 (1/2) = [] :=
  ⟨by norm_num, range_truncation_and_empty.2.2 1 1 1 (1/2) (by norm_num)⟩

/-- C8: nearest_ansi_color_code always lands in the 216-color cube
range [16, 231]; the color (0,0,0) maps to 16 and (1,1,1) (bytes
(255,255,255)) maps to 231. -/
theorem nearest_ansi_color_code_range :
    (∀ c : MainRs.Color,
      16 ≤ c.nearest_ansi_color_code ∧ c.nearest_ansi_color_code ≤ 231) ∧
    MainRs.Color.nearest_ansi_color_code ⟨0, 0, 0⟩ = 16 ∧
    MainRs.Color.nearest_ansi_color_code ⟨1, 1, 1⟩ = 231 := by
  refine ⟨?_, ?_, ?_⟩
  · intro c
    unfold MainRs.Color.nearest_ansi_color_code
    dsimp only
    omega
  · norm_num [MainRs.Color.nearest_ansi_color_code, MainRs.Color.as_bytes,
      MainRs.clampByte, MainRs.roundQ]
  · norm_num [MainRs.Color.nearest_ansi_color_code, MainRs.Color.as_bytes,
      MainRs.clampByte, MainRs.roundQ]
    decide

/-- C9: eic_luminosity of black is exactly 0, of white exactly 1 (the
three coefficients sum to 1; the f64 sum is also exactly 1.0), and the
luminosity is monotone non-decreasing when all three components
increase simultaneously. -/
theorem eic_luminosity_monotone :
    MainRs.Color.eic_luminosity ⟨0, 0, 0⟩ = 0 ∧
    MainRs.Color.eic_luminosity ⟨1, 1, 1⟩ = 1 ∧
    ∀ c1 c2 : MainRs.Color, c1.r ≤ c2.r → c1.g ≤ c2.g → c1.b ≤ c2.b →
      c1.eic_luminosity ≤ c2.eic_luminosity := by
  refine ⟨by norm_num [MainRs.Color.eic_luminosity],
    by norm_num [MainRs.Color.eic_luminosity], ?_⟩
  intro c1 c2 hr hg hb
  unfold MainRs.Color.eic_luminosity
  nlinarith [hr, hg, hb]

/-- C9 witness: monotonicity applied from black to white. -/
theorem eic_luminosity_monotone_witness :
    ((MainRs.Color.mk 0 0 0).r ≤ (MainRs.Color.mk 1 1 1).r ∧
     (MainRs.Color.mk 0 0 0).g ≤ (MainRs.Color.mk 1 1 1).g ∧
     (MainRs.Color.mk 0 0 0).b ≤ (MainRs.Color.mk 1 1 1).b) ∧
    MainRs.Color.eic_luminosity ⟨0, 0, 0⟩
      ≤ MainRs.Color.eic_luminosity ⟨1, 1, 1⟩ :=
  ⟨⟨by norm_num, by norm_num, by norm_num⟩,
   eic_luminosity_monotone.2.2 ⟨0, 0, 0⟩ ⟨1, 1, 1⟩ (by norm_num)
     (by norm_num) (by norm_num)⟩

/-- C10 counterexample: the Rust float remainder keeps the sign of the
dividend, so a negative offset escapes [0,1): with offset -180 degrees
the first hue sample of main's sequence is -1/2. -/
theorem hue_sample_negative_offset :
    (MainRs.hueSamples 16 (-180)).head? = some (-(1/2)) ∧
    ¬ (0 ≤ (-(1/2) : ℚ)) := by
  constructor
  · norm_num [MainRs.hueSamples, MainRs.range, MainRs.fmodQ, MainRs.truncQ,
      List.range']
  · norm_num

/-- C10 amended: for every nonnegative offset and every range call with
truncate_tail ≥ 1 — as in all three calls the swatch renderer makes
(the hue call uses truncate_tail 1, the value and saturation calls use
truncate_head 1 and truncate_tail 1) — every element produced by range
lies in [0,1), hence every hue handed to from_hsv satisfies h*360 in
[0,360).  The truncate_tail ≥ 1 restriction keeps the statement inside
the domain where the rational model is faithful: it forces any list
reaching the map to have resolution ≥ 2, so the f64 factor
1/(resolution-1) is finite and exact.  For negative offsets (which the
CLI accepts) the bound fails. -/
theorem range_elements_in_unit_interval (res th tt : ℕ) (offset : ℚ)
    (htt : 1 ≤ tt) (hoff : 0 ≤ offset) :
    ∀ x ∈ MainRs.range res th tt offset,
      (0 ≤ x ∧ x < 1) ∧ 0 ≤ x * 360 ∧ x * 360 < 360 := by
  intro x hx
  unfold MainRs.range at hx
  split at hx
  · simp at hx
  · simp only [List.mem_map] at hx
    obtain ⟨i, _, rfl⟩ := hx
    have harg : 0 ≤ (i:ℚ) * (1 / ((res - 1 : ℕ) : ℚ)) + offset := by
      have hi : (0:ℚ) ≤ (i:ℚ) := Nat.cast_nonneg i
      have hf : (0:ℚ) ≤ 1 / ((res - 1 : ℕ) : ℚ) :=
        one_div_nonneg.mpr (Nat.cast_nonneg _)
      nlinarith
    obtain ⟨ha, hb⟩ := fmodQ_nonneg_lt harg (by norm_num : (0:ℚ) < 1)
    exact ⟨⟨ha, hb⟩, by nlinarith, by nlinarith⟩

/-- C10 witness: the unit-interval bound applied to the element 1/4 of
range 5 1 1 0 (a renderer-shaped call with truncate_tail 1). -/
theorem range_elements_in_unit_interval_witness :
    (1 ≤ 1 ∧ (0:ℚ) ≤ 0 ∧ (1/4 : ℚ) ∈ MainRs.range 5 1 1 0) ∧
    ((0 ≤ (1/4:ℚ) ∧ (1/4:ℚ) < 1) ∧ 0 ≤ (1/4:ℚ) * 360 ∧ (1/4:ℚ) * 360 < 360) :=
  ⟨⟨le_refl 1, le_refl 0, by
    have e : MainRs.range 5 1 1 0 = [1/4, 1/2, 3/4] := by
      norm_num [MainRs.range, MainRs.fmodQ, MainRs.truncQ, List.range']
    rw [e]
    norm_num⟩,
   range_elements_in_unit_interval 5 1 1 0 (le_refl 1) (le_refl 0) (1/4) (by
    have e : MainRs.range 5 1 1 0 = [1/4, 1/2, 3/4] := by
      norm_num [MainRs.range, MainRs.fmodQ, MainRs.truncQ, List.range']
    rw [e]
    norm_num)⟩
